import Mathlib

/-!
Verification of the SpockBot protocol-engine core (`spock/plugins/core/net.py`).

The connection state, socket wrapper, and every operation below are shallow
embeddings of the Python classes `SelectSocket`, `NetCore` and `NetPlugin`.
External collaborators that are not part of the core source
(`utils.BoundBuffer`, `mcpacket.Packet`, the cipher primitive) are modelled
from the specification and marked as such in their doc comments.
Effects on the environment (event emission, socket system calls) are made
explicit: emitted events become trace lists, and system-call outcomes become
parameters of the embedded operation.
-/

namespace Spock

/-- Protocol states from `mcdata`: HANDSHAKE, STATUS, LOGIN, PLAY. -/
inductive ProtoState
  | handshake
  | status
  | login
  | play
  deriving DecidableEq, Repr

/-- Compression states from `mcdata`: PROTO_COMP_OFF and PROTO_COMP_ON. -/
inductive CompState
  | compOff
  | compOn
  deriving DecidableEq, Repr

/-- Modelled from the spec: the consumed symmetric stream cipher primitive
(`mccrypto.AESCipher`, not under src/) — a keystream combined with the data
byte by byte, where the keystream position advances by one per byte so that
ciphertext length equals plaintext length. -/
structure Cipher where
  ks : Nat → Nat
  pos : Nat

/-- Byte-wise stream decryption: byte `i` of the input is combined with the
keystream value at position `p + i`. -/
def streamDec (ks : Nat → Nat) : Nat → List Nat → List Nat
  | _, [] => []
  | p, b :: bs => (Nat.xor b (ks p)) % 256 :: streamDec ks (p + 1) bs

/-- Modelled from the spec: `utils.BoundBuffer` (not under src/) — an ordered
byte sequence plus a single saved cursor; `append` extends the tail, `save`
records the current read position, `revert` restores it.  `buff` holds the
bytes from the current read position onward; `backup` holds the bytes from the
saved position onward. -/
structure BoundBuffer where
  buff : List Nat
  backup : List Nat
  deriving DecidableEq, Repr

/-- The connection state: the fields assigned by `NetCore.__init__`
(net.py 52-63) together with the `cipher` attribute, which `__init__` does
not assign (it is first created by `enable_crypto`); the fresh-object state
therefore has `cipher = none`. -/
structure ConnState where
  host : Option String
  port : Option Nat
  connected : Bool
  encrypted : Bool
  proto_state : ProtoState
  comp_state : CompState
  comp_threshold : Int
  sbuff : List Nat
  rbuff : BoundBuffer
  cipher : Option Cipher

/-- The socket wrapper state (`SelectSocket`): the `sending` flag consulted
by `poll`, and whether the underlying OS socket is currently in blocking
mode (`setblocking`). -/
structure SockState where
  sending : Bool
  blocking : Bool
  deriving DecidableEq, Repr

/-- The state of a freshly constructed `NetCore` (net.py 52-63): no host or
port, disconnected, unencrypted, HANDSHAKE protocol state, compression off
with threshold -1, empty buffers, and no `cipher` attribute yet. -/
def initialConn : ConnState :=
  { host := none
    port := none
    connected := false
    encrypted := false
    proto_state := ProtoState.handshake
    comp_state := CompState.compOff
    comp_threshold := -1
    sbuff := []
    rbuff := ⟨[], []⟩
    cipher := none }

/-- A freshly constructed `SelectSocket` (net.py 16-22): not sending, socket
in non-blocking mode. -/
def initialSock : SockState :=
  { sending := false, blocking := false }

/-- Re-running `NetCore.__init__` on an existing object (as `reset` does,
net.py 126): every `__init__` field is set back to its construction-time
value, but the `cipher` attribute is not among them and keeps its current
value. -/
def initFields (s : ConnState) : ConnState :=
  { host := none
    port := none
    connected := false
    encrypted := false
    proto_state := ProtoState.handshake
    comp_state := CompState.compOff
    comp_threshold := -1
    sbuff := []
    rbuff := ⟨[], []⟩
    cipher := s.cipher }

/-- `SelectSocket.reset` (net.py 46-49): the OS socket handle is replaced by
a fresh non-blocking one; the wrapper's `sending` flag is not touched. -/
def sockReset (sk : SockState) : SockState :=
  { sk with blocking := false }

/-- `NetCore.set_proto_state` (net.py 80-82): store the new protocol state
(the accompanying state-name event emission touches no connection field and
is elided here). -/
def set_proto_state (st : ProtoState) (s : ConnState) : ConnState :=
  { s with proto_state := st }

/-- `NetCore.set_comp_state` (net.py 84-87): store the threshold, and switch
compression on when the threshold is nonnegative; no branch ever switches it
off. -/
def set_comp_state (threshold : Int) (s : ConnState) : ConnState :=
  { s with
    comp_threshold := threshold
    comp_state := if 0 ≤ threshold then CompState.compOn else s.comp_state }

/-- Modelled from the spec: construction of the external cipher primitive
from the shared secret (`mccrypto.AESCipher(secret_key)`, not under src/);
the keystream derivation itself is opaque to the core. -/
def mkCipher (secret_key : Nat) : Cipher :=
  { ks := fun _ => secret_key, pos := 0 }

/-- `NetCore.enable_crypto` (net.py 115-117): install a cipher and set the
`encrypted` flag. -/
def enable_crypto (secret_key : Nat) (s : ConnState) : ConnState :=
  { s with cipher := some (mkCipher secret_key), encrypted := true }

/-- `NetCore.disable_crypto` (net.py 119-121): clear the cipher and the
`encrypted` flag. -/
def disable_crypto (s : ConnState) : ConnState :=
  { s with cipher := none, encrypted := false }

/-- `NetCore.reset` (net.py 123-126): clear `connected`, reset the socket
wrapper, and re-run `__init__` on the connection object. -/
def netReset (s : ConnState) (sk : SockState) : ConnState × SockState :=
  (initFields { s with connected := false }, sockReset sk)

/-- Events emitted by `NetCore.connect`. -/
inductive NetEvent
  | connectEv (host : String) (port : Nat)
  deriving DecidableEq, Repr

/-- `NetCore.connect` (net.py 65-78): store host and port, switch the socket
to blocking mode, attempt the one-shot OS connect (its outcome `ok` is an
environment parameter); on success restore non-blocking mode, set
`connected` and emit the connect event; a raising connect is caught by the
`except` clause, which only prints, so the two statements after the connect
call are skipped. -/
def connect (host : String) (port : Nat) (ok : Bool) (s : ConnState)
    (sk : SockState) : ConnState × SockState × List NetEvent :=
  let s1 := { s with host := some host, port := some port }
  let sk1 := { sk with blocking := true }
  if ok then
    ({ s1 with connected := true }, { sk1 with blocking := false },
      [NetEvent.connectEv host port])
  else
    (s1, sk1, [])

/-- Readiness flags returned by `SelectSocket.poll`. -/
inductive Flag
  | socketRecv
  | socketSend
  | socketErr
  deriving DecidableEq, Repr

/-- `SelectSocket.poll` (net.py 24-44): clear the `sending` flag when it was
set (requesting the write set from select just once), run the OS readiness
check (its outcome is an environment parameter: three nonemptiness bits on
success, or a select error), and translate the three result lists into
flags; the `except select.error` branch empties all three lists, so a
failing readiness check yields no flags. -/
def poll (sk : SockState) (res : Except Unit (Bool × Bool × Bool)) :
    SockState × List Flag :=
  let sk1 := if sk.sending then { sk with sending := false } else sk
  match res with
  | Except.error _ => (sk1, [])
  | Except.ok (r, w, x) =>
      (sk1, (if r then [Flag.socketRecv] else [])
          ++ (if w then [Flag.socketSend] else [])
          ++ (if x then [Flag.socketErr] else []))

/-- `NetPlugin.handleSEND` (net.py 180-189): when connected, send the
pending buffer (the OS accepts `sent` bytes), keep the unsent remainder,
and if a remainder persists execute `self.sending = True` — which assigns a
fresh attribute named `sending` on the `NetPlugin` object itself (modelled
as the third component, initially `none` since the plugin never initializes
it), not the `sending` field of the `SelectSocket` consulted by `poll`. -/
def handleSEND (sent : Nat) (s : ConnState) (sk : SockState)
    (plugin_sending : Option Bool) : ConnState × SockState × Option Bool :=
  if s.connected then
    let s1 := { s with sbuff := s.sbuff.drop sent }
    (s1, sk, if s1.sbuff.isEmpty then plugin_sending else some true)
  else
    (s, sk, plugin_sending)

/-- Effects performed by the error/hang-up handlers, in order. -/
inductive Eff
  | resetEff
  | disconnectEv (cause : String)
  | killEv
  deriving DecidableEq, Repr

/-- The shape of an effect, forgetting the disconnect cause payload. -/
inductive EffShape
  | resetS
  | disconnectS
  | killS
  deriving DecidableEq, Repr

/-- Forget the cause payload of an effect. -/
def effShape : Eff → EffShape
  | Eff.resetEff => EffShape.resetS
  | Eff.disconnectEv _ => EffShape.disconnectS
  | Eff.killEv => EffShape.killS

/-- `NetPlugin.handleERR` (net.py 192-197): reset the protocol engine, emit
`disconnect` carrying the OS error as cause, and kill the event loop when
`sock_quit` is configured and the kill latch is not already set. -/
def handleERR (cause : String) (sock_quit kill_event : Bool) (s : ConnState)
    (sk : SockState) : ConnState × SockState × List Eff :=
  let r := netReset s sk
  (r.1, r.2,
    [Eff.resetEff, Eff.disconnectEv cause]
      ++ (if sock_quit && !kill_event then [Eff.killEv] else []))

/-- `NetPlugin.handleHUP` (net.py 200-205): reset the protocol engine, emit
`disconnect` with the fixed cause string, and kill the event loop when
`sock_quit` is configured and the kill latch is not already set. -/
def handleHUP (sock_quit kill_event : Bool) (s : ConnState)
    (sk : SockState) : ConnState × SockState × List Eff :=
  let r := netReset s sk
  (r.1, r.2,
    [Eff.resetEff, Eff.disconnectEv "Socket Hung Up"]
      ++ (if sock_quit && !kill_event then [Eff.killEv] else []))

/-- `NetPlugin.handle_handshake` (net.py 208-209): set the protocol state to
the packet's requested next state. -/
def handle_handshake (next_state : ProtoState) (s : ConnState) : ConnState :=
  set_proto_state next_state s

/-- `NetPlugin.handle_login_success` (net.py 212-213): set the protocol
state to PLAY. -/
def handle_login_success (s : ConnState) : ConnState :=
  set_proto_state ProtoState.play s

/-- `NetPlugin.handle_comp` (net.py 216-217): forward the packet's threshold
to `set_comp_state`. -/
def handle_comp (threshold : Int) (s : ConnState) : ConnState :=
  set_comp_state threshold s

/-- The compression invariant claimed by the spec:
compressionState = ON iff compressionThreshold ≥ 0. -/
def compInv (s : ConnState) : Prop :=
  s.comp_state = CompState.compOn ↔ 0 ≤ s.comp_threshold

instance (s : ConnState) : Decidable (compInv s) := by
  unfold compInv; infer_instance

/-- The crypto invariant claimed by the spec: the cipher is present iff
`encrypted` is set. -/
def cryptoInv (s : ConnState) : Prop :=
  s.cipher.isSome = s.encrypted

/-- Result of reading one varint from the front of the buffered bytes. -/
inductive VarintRes
  | ok (v : Nat) (rest : List Nat)
  | underflow
  | malformed
  deriving DecidableEq, Repr

/-- Modelled from the spec: the wire format's variable-length integer — each
byte contributes its low 7 bits, its high bit marks continuation; running
out of bytes is underflow, while a varint longer than 5 bytes is a
malformed-length failure (not underflow). -/
def readVarintAux : Nat → Nat → List Nat → VarintRes
  | _, _, [] => VarintRes.underflow
  | count, acc, b :: bs =>
      if 5 ≤ count then VarintRes.malformed
      else if b < 128 then VarintRes.ok (acc + b * 2 ^ (7 * count)) bs
      else readVarintAux (count + 1) (acc + (b - 128) * 2 ^ (7 * count)) bs

/-- Read one varint from the front of the buffer. -/
def readVarint (l : List Nat) : VarintRes :=
  readVarintAux 0 0 l

/-- A decoded inbound packet: its identifying protocol state (the direction
is always SERVER_TO_CLIENT on the read path) and its payload bytes. -/
structure Packet where
  proto : ProtoState
  payload : List Nat
  deriving DecidableEq, Repr

/-- Result of one frame decode attempt on the buffered bytes. -/
inductive DecodeRes
  | ok (pkt : Packet) (rest : List Nat)
  | underflow
  | malformed
  deriving DecidableEq, Repr

/-- Modelled from the spec: interpretation of the body of one complete frame
under the compression state — with compression on, the body starts with a
varint uncompressed-length; since the whole body is already present, failing
to read it is a corrupt-frame failure, not underflow.  Decompression of the
remaining bytes is the external deflate primitive and is kept opaque. -/
def parseBody : CompState → List Nat → Option (List Nat)
  | CompState.compOff, body => some body
  | CompState.compOn, body =>
      match readVarint body with
      | VarintRes.ok _ rest => some rest
      | _ => none

/-- Modelled from the spec: `mcpacket.Packet(...).decode` for direction
SERVER_TO_CLIENT (not under src/) — read the varint total length, require
that many buffered bytes (fewer is underflow), then interpret the frame body
under the compression state; a malformed length varint or a corrupt body is
a distinct decode failure. -/
def decodeP (proto : ProtoState) (comp : CompState) (buf : List Nat) :
    DecodeRes :=
  match readVarint buf with
  | VarintRes.underflow => DecodeRes.underflow
  | VarintRes.malformed => DecodeRes.malformed
  | VarintRes.ok len rest =>
      if rest.length < len then DecodeRes.underflow
      else
        match parseBody comp (rest.take len) with
        | some payload => DecodeRes.ok ⟨proto, payload⟩ (rest.drop len)
        | none => DecodeRes.malformed

/-- A decoded message is emitted under two identifiers (net.py 112-113):
its numeric ident and its string ident. -/
inductive PEvent
  | byId (p : Packet)
  | byName (p : Packet)
  deriving DecidableEq, Repr

/-- The decode loop of `read_packet` (net.py 101-113), with the receive
buffer represented by its bytes from the current read position: each
iteration saves a checkpoint and attempts one decode; success emits the
packet under its two identifiers and continues, underflow reverts to the
checkpoint and stops, and any other decode failure propagates (third
component `true`).  `fuel` bounds the iteration count; every successful
decode consumes at least one byte, so `buf.length + 1` fuel is enough. -/
def drain (proto : ProtoState) (comp : CompState) :
    Nat → List Nat → List PEvent × List Nat × Bool
  | 0, buf => ([], buf, false)
  | fuel + 1, buf =>
      match decodeP proto comp buf with
      | DecodeRes.ok pkt rest =>
          let r := drain proto comp fuel rest
          (PEvent.byId pkt :: PEvent.byName pkt :: r.1, r.2)
      | DecodeRes.underflow => ([], buf, false)
      | DecodeRes.malformed => ([], buf, true)

/-- `NetCore.read_packet` (net.py 99-113): decrypt the incoming bytes when
encrypted (`self.cipher.decrypt(data)` fails outright when no cipher was
ever installed), append them to the receive buffer, and run the decode
loop; the returned triple is the emitted events, the updated connection
state, and whether a non-underflow decode failure propagated. -/
def read_packet (s : ConnState) (data : List Nat) :
    List PEvent × ConnState × Bool :=
  if s.encrypted then
    match s.cipher with
    | none => ([], s, true)
    | some c =>
        let buf := s.rbuff.buff ++ streamDec c.ks c.pos data
        let r := drain s.proto_state s.comp_state (buf.length + 1) buf
        (r.1,
          { s with
            rbuff := ⟨r.2.1, r.2.1⟩
            cipher := some ⟨c.ks, c.pos + data.length⟩ },
          r.2.2)
  else
    let buf := s.rbuff.buff ++ data
    let r := drain s.proto_state s.comp_state (buf.length + 1) buf
    (r.1, { s with rbuff := ⟨r.2.1, r.2.1⟩ }, r.2.2)

/-- The bytes that actually reach the receive buffer for a `read_packet`
call: the incoming bytes, decrypted when a cipher is active. -/
def effIn (s : ConnState) (data : List Nat) : List Nat :=
  match s.encrypted, s.cipher with
  | true, some c => streamDec c.ks c.pos data
  | _, _ => data

/-- Two successive `read_packet` calls: the second is only reached when the
first did not propagate a decode failure; the emitted events are the two
traces in order. -/
def readSplit (s : ConnState) (d1 d2 : List Nat) :
    List PEvent × ConnState × Bool :=
  let r1 := read_packet s d1
  if r1.2.2 then r1
  else
    let r2 := read_packet r1.2.1 d2
    (r1.1 ++ r2.1, r2.2)

instance (s : ConnState) : Decidable (cryptoInv s) := by
  unfold cryptoInv; infer_instance

/-- C2 counterexample: the claimed iff invariant fails on the code — after
`set_comp_state 5` followed by `set_comp_state (-1)` the threshold is
negative but `comp_state` is still ON (so the iff is violated), because
`set_comp_state` never switches compression off. -/
theorem set_comp_state_iff_cex :
    (set_comp_state (-1) (set_comp_state 5 initialConn)).comp_state =
      CompState.compOn ∧
    (set_comp_state (-1) (set_comp_state 5 initialConn)).comp_threshold < 0 := by
  decide

/-- C2 (amended): the iff invariant holds in the initial state;
`set_comp_state t` always records `t` as the threshold and sets the
compression state to ON exactly when `t ≥ 0`, leaving it unchanged
otherwise — so the iff is established by every nonnegative-threshold call,
but a negative-threshold call from the ON state leaves ON with a negative
threshold. -/
theorem set_comp_state_behavior :
    compInv initialConn ∧
    ∀ (s : ConnState) (t : Int),
      (set_comp_state t s).comp_threshold = t ∧
      (set_comp_state t s).comp_state =
        (if 0 ≤ t then CompState.compOn else s.comp_state) ∧
      (0 ≤ t → compInv (set_comp_state t s)) := by
  refine ⟨by decide, fun s t => ⟨rfl, rfl, fun ht => ?_⟩⟩
  unfold compInv set_comp_state
  simp [ht]

/-- C2 witness: the amended behavior at threshold 64 from the initial
state. -/
theorem set_comp_state_behavior_witness :
    (set_comp_state 64 initialConn).comp_threshold = 64 ∧
    compInv (set_comp_state 64 initialConn) :=
  ⟨(set_comp_state_behavior.2 initialConn 64).1,
   (set_comp_state_behavior.2 initialConn 64).2.2 (by decide)⟩

/-- C3 counterexample: the claimed invariant fails on the code — after
`enable_crypto` followed by `reset`, `encrypted` is false but the cipher
installed earlier is still present (so cipher-present-iff-encrypted is
violated), because `__init__` (re-run by `reset`) never assigns the
`cipher` attribute. -/
theorem reset_keeps_cipher_cex :
    (netReset (enable_crypto 7 initialConn) initialSock).1.encrypted =
      false ∧
    ((netReset (enable_crypto 7 initialConn) initialSock).1.cipher).isSome =
      true :=
  ⟨rfl, rfl⟩

/-- C3 (amended): the cipher-iff-encrypted invariant holds in the initial
state and is preserved atomically by `enable_crypto` and `disable_crypto`;
`reset`, however, clears `encrypted` but leaves the `cipher` field exactly
as it was, so a cipher installed before a reset survives it (unused, since
every use of the cipher is guarded by `encrypted`). -/
theorem crypto_inv_behavior :
    cryptoInv initialConn ∧
    (∀ (s : ConnState) (k : Nat), cryptoInv (enable_crypto k s)) ∧
    (∀ s : ConnState, cryptoInv (disable_crypto s)) ∧
    (∀ (s : ConnState) (sk : SockState),
      (netReset s sk).1.encrypted = false ∧
      (netReset s sk).1.cipher = s.cipher) :=
  ⟨rfl, fun _ _ => rfl, fun _ => rfl, fun _ _ => ⟨rfl, rfl⟩⟩

/-- C4: evaluation of `handleSEND` at the failing input — connected, pending
buffer `[1, 2, 3]`, the OS accepts 1 byte, `sock.sending = false`.  The
unsent remainder `[2, 3]` is kept, but the socket wrapper's `sending` flag
consulted by `poll` stays false: the statement `self.sending = True` sets an
otherwise-unused attribute on the `NetPlugin` object (third component)
instead of `self.sock.sending`. -/
theorem handleSEND_sock_flag_bug :
    (handleSEND 1 { initialConn with connected := true, sbuff := [1, 2, 3] }
        initialSock none).1.sbuff = [2, 3] ∧
    (handleSEND 1 { initialConn with connected := true, sbuff := [1, 2, 3] }
        initialSock none).2.1.sending = false ∧
    (handleSEND 1 { initialConn with connected := true, sbuff := [1, 2, 3] }
        initialSock none).2.2 = some true :=
  ⟨rfl, rfl, rfl⟩

/-- C6: from HANDSHAKE, a handshake message requesting LOGIN yields protocol
state LOGIN; any sequence of compression-announcement messages leaves the
protocol state unchanged; and from LOGIN, a login-success message after any
such sequence yields PLAY. -/
theorem proto_transitions (s : ConnState) (ts : List Int) :
    (s.proto_state = ProtoState.handshake →
      (handle_handshake ProtoState.login s).proto_state = ProtoState.login) ∧
    (ts.foldl (fun a t => handle_comp t a) s).proto_state = s.proto_state ∧
    (s.proto_state = ProtoState.login →
      (handle_login_success
        (ts.foldl (fun a t => handle_comp t a) s)).proto_state =
        ProtoState.play) := by
  refine ⟨fun _ => rfl, ?_, fun _ => rfl⟩
  induction ts generalizing s with
  | nil => rfl
  | cons t ts ih => simpa [handle_comp, set_comp_state] using ih _

/-- C6 witness: the transitions at concrete states — the initial state is in
HANDSHAKE, and a state moved to LOGIN reaches PLAY through a compression
announcement with threshold 64 followed by login success. -/
theorem proto_transitions_witness :
    (handle_handshake ProtoState.login initialConn).proto_state =
      ProtoState.login ∧
    (handle_login_success
      (([64] : List Int).foldl (fun a t => handle_comp t a)
        (set_proto_state ProtoState.login initialConn))).proto_state =
      ProtoState.play :=
  ⟨(proto_transitions initialConn []).1 rfl,
   (proto_transitions (set_proto_state ProtoState.login initialConn)
      [64]).2.2 rfl⟩

/-- C7 counterexample: the claim fails on the code — when the OS connect
raises, the `except` clause is entered before `setblocking(False)` runs, so
the socket is still in blocking mode when `connect` returns. -/
theorem connect_blocking_cex :
    (connect "localhost" 25565 false initialConn initialSock).2.1.blocking =
      true :=
  rfl

/-- C7 (amended): `connect` switches the socket to blocking mode for the
one-shot connect and restores non-blocking mode only on the success path; a
failing connect skips the restore and leaves the socket in blocking mode.
On failure `connected` is unchanged, so it stays false when it was false. -/
theorem connect_blocking_behavior (host : String) (port : Nat)
    (s : ConnState) (sk : SockState) :
    (connect host port true s sk).2.1.blocking = false ∧
    (connect host port false s sk).2.1.blocking = true ∧
    (connect host port false s sk).1.connected = s.connected ∧
    (connect host port true s sk).1.connected = true :=
  ⟨rfl, rfl, rfl, rfl⟩

/-- C8 counterexample: the claim's "kill the event loop exactly when
sock_quit is set" fails on the code — with `sock_quit` set but the kill
latch (`event.kill_event`) already true, the effect sequence is only reset
and disconnect: no kill effect is produced. -/
theorem hup_err_kill_cex :
    (handleERR "refused" true true initialConn initialSock).2.2 =
      [Eff.resetEff, Eff.disconnectEv "refused"] :=
  rfl

/-- C8 (amended): handling SOCKET_ERR and handling SOCKET_HUP leave the
connection and socket in identical states and produce the same effect
sequence up to the disconnect cause payload — reset, then a disconnect
notification carrying a cause, then a kill exactly when `sock_quit` is set
and the kill latch is not already set. -/
theorem hup_err_equiv (cause : String) (q k : Bool) (s : ConnState)
    (sk : SockState) :
    (handleERR cause q k s sk).1 = (handleHUP q k s sk).1 ∧
    (handleERR cause q k s sk).2.1 = (handleHUP q k s sk).2.1 ∧
    (handleERR cause q k s sk).2.2.map effShape =
      (handleHUP q k s sk).2.2.map effShape ∧
    (handleERR cause q k s sk).2.2.map effShape =
      [EffShape.resetS, EffShape.disconnectS]
        ++ (if q && !k then [EffShape.killS] else []) := by
  refine ⟨rfl, rfl, ?_, ?_⟩ <;>
    cases q <;> cases k <;> simp [handleERR, handleHUP, effShape]

/-- C9: a readiness-check failure at the OS level (the select call raising)
makes `poll` return the empty list of readiness flags rather than
propagating the failure. -/
theorem poll_select_error (sk : SockState) (e : Unit) :
    (poll sk (Except.error e)).2 = [] :=
  rfl

theorem streamDec_append (ks : Nat → Nat) (a : List Nat) :
    ∀ (p : Nat) (b : List Nat),
      streamDec ks p (a ++ b) =
        streamDec ks p a ++ streamDec ks (p + a.length) b := by
  induction a with
  | nil => intro p b; simp [streamDec]
  | cons x xs ih =>
      intro p b
      show (Nat.xor x (ks p)) % 256 :: streamDec ks (p + 1) (xs ++ b) =
        (Nat.xor x (ks p)) % 256 ::
          (streamDec ks (p + 1) xs ++ streamDec ks (p + (x :: xs).length) b)
      have harith : p + (x :: xs).length = p + 1 + xs.length := by
        simp only [List.length_cons]; omega
      rw [harith, ih (p + 1) b]

theorem readVarintAux_cons (c a b : Nat) (bs : List Nat) :
    readVarintAux c a (b :: bs) =
      if 5 ≤ c then VarintRes.malformed
      else if b < 128 then VarintRes.ok (a + b * 2 ^ (7 * c)) bs
      else readVarintAux (c + 1) (a + (b - 128) * 2 ^ (7 * c)) bs :=
  rfl

theorem readVarintAux_ok_append (l t : List Nat) :
    ∀ (c a v : Nat) (r : List Nat),
      readVarintAux c a l = VarintRes.ok v r →
      readVarintAux c a (l ++ t) = VarintRes.ok v (r ++ t) := by
  induction l with
  | nil => intro c a v r h; exact VarintRes.noConfusion h
  | cons b bs ih =>
      intro c a v r h
      show readVarintAux c a (b :: (bs ++ t)) = VarintRes.ok v (r ++ t)
      rw [readVarintAux_cons] at h ⊢
      by_cases h1 : 5 ≤ c
      · rw [if_pos h1] at h; exact VarintRes.noConfusion h
      · rw [if_neg h1] at h ⊢
        by_cases h2 : b < 128
        · rw [if_pos h2] at h ⊢
          injection h with hv hr
          subst hv; subst hr; rfl
        · rw [if_neg h2] at h ⊢
          exact ih _ _ _ _ h

theorem readVarintAux_malformed_append (l t : List Nat) :
    ∀ (c a : Nat),
      readVarintAux c a l = VarintRes.malformed →
      readVarintAux c a (l ++ t) = VarintRes.malformed := by
  induction l with
  | nil => intro c a h; exact VarintRes.noConfusion h
  | cons b bs ih =>
      intro c a h
      show readVarintAux c a (b :: (bs ++ t)) = VarintRes.malformed
      rw [readVarintAux_cons] at h ⊢
      by_cases h1 : 5 ≤ c
      · rw [if_pos h1]
      · rw [if_neg h1] at h ⊢
        by_cases h2 : b < 128
        · rw [if_pos h2] at h; exact VarintRes.noConfusion h
        · rw [if_neg h2] at h ⊢
          exact ih _ _ h

theorem readVarintAux_ok_length (l : List Nat) :
    ∀ (c a v : Nat) (r : List Nat),
      readVarintAux c a l = VarintRes.ok v r → r.length < l.length := by
  induction l with
  | nil => intro c a v r h; exact VarintRes.noConfusion h
  | cons b bs ih =>
      intro c a v r h
      rw [readVarintAux_cons] at h
      by_cases h1 : 5 ≤ c
      · rw [if_pos h1] at h; exact VarintRes.noConfusion h
      · rw [if_neg h1] at h
        by_cases h2 : b < 128
        · rw [if_pos h2] at h
          injection h with hv hr
          subst hr; simp
        · rw [if_neg h2] at h
          exact Nat.lt_trans (ih _ _ _ _ h) (by simp)

theorem decodeP_ok_append (p : ProtoState) (c : CompState) (buf t : List Nat)
    (pkt : Packet) (r : List Nat) (h : decodeP p c buf = DecodeRes.ok pkt r) :
    decodeP p c (buf ++ t) = DecodeRes.ok pkt (r ++ t) := by
  cases hv : readVarint buf with
  | underflow =>
      simp only [decodeP, hv] at h
      exact DecodeRes.noConfusion h
  | malformed =>
      simp only [decodeP, hv] at h
      exact DecodeRes.noConfusion h
  | ok len rest =>
      simp only [decodeP, hv] at h
      have hv2 : readVarint (buf ++ t) = VarintRes.ok len (rest ++ t) :=
        readVarintAux_ok_append buf t 0 0 len rest hv
      simp only [decodeP, hv2]
      by_cases hlen : rest.length < len
      · rw [if_pos hlen] at h; exact DecodeRes.noConfusion h
      · rw [if_neg hlen] at h
        have hle : len ≤ rest.length := Nat.le_of_not_lt hlen
        have hlen2 : ¬ (rest ++ t).length < len := by
          rw [List.length_append]; omega
        rw [if_neg hlen2, List.take_append_of_le_length hle,
          List.drop_append_of_le_length hle]
        cases hb : parseBody c (rest.take len) with
        | some payload =>
            simp only [hb] at h ⊢
            injection h with h1 h2
            subst h1; subst h2; rfl
        | none =>
            simp only [hb] at h
            exact DecodeRes.noConfusion h

theorem decodeP_malformed_append (p : ProtoState) (c : CompState)
    (buf t : List Nat) (h : decodeP p c buf = DecodeRes.malformed) :
    decodeP p c (buf ++ t) = DecodeRes.malformed := by
  cases hv : readVarint buf with
  | underflow =>
      simp only [decodeP, hv] at h
      exact DecodeRes.noConfusion h
  | malformed =>
      have hv2 : readVarint (buf ++ t) = VarintRes.malformed :=
        readVarintAux_malformed_append buf t 0 0 hv
      simp only [decodeP, hv2]
  | ok len rest =>
      simp only [decodeP, hv] at h
      have hv2 : readVarint (buf ++ t) = VarintRes.ok len (rest ++ t) :=
        readVarintAux_ok_append buf t 0 0 len rest hv
      simp only [decodeP, hv2]
      by_cases hlen : rest.length < len
      · rw [if_pos hlen] at h; exact DecodeRes.noConfusion h
      · rw [if_neg hlen] at h
        have hle : len ≤ rest.length := Nat.le_of_not_lt hlen
        have hlen2 : ¬ (rest ++ t).length < len := by
          rw [List.length_append]; omega
        rw [if_neg hlen2, List.take_append_of_le_length hle]
        cases hb : parseBody c (rest.take len) with
        | some payload =>
            simp only [hb] at h
            exact DecodeRes.noConfusion h
        | none => rfl

theorem decodeP_ok_length (p : ProtoState) (c : CompState) (buf : List Nat)
    (pkt : Packet) (r : List Nat) (h : decodeP p c buf = DecodeRes.ok pkt r) :
    r.length < buf.length := by
  cases hv : readVarint buf with
  | underflow =>
      simp only [decodeP, hv] at h
      exact DecodeRes.noConfusion h
  | malformed =>
      simp only [decodeP, hv] at h
      exact DecodeRes.noConfusion h
  | ok len rest =>
      simp only [decodeP, hv] at h
      by_cases hlen : rest.length < len
      · rw [if_pos hlen] at h; exact DecodeRes.noConfusion h
      · rw [if_neg hlen] at h
        have hrest : rest.length < buf.length :=
          readVarintAux_ok_length buf 0 0 len rest hv
        cases hb : parseBody c (rest.take len) with
        | some payload =>
            simp only [hb] at h
            injection h with h1 h2
            subst h2
            calc (rest.drop len).length ≤ rest.length := by
                  rw [List.length_drop]; omega
              _ < buf.length := hrest
        | none =>
            simp only [hb] at h
            exact DecodeRes.noConfusion h

theorem drain_fuel (p : ProtoState) (c : CompState) :
    ∀ (f1 f2 : Nat) (buf : List Nat),
      buf.length < f1 → buf.length < f2 →
      drain p c f1 buf = drain p c f2 buf := by
  intro f1
  induction f1 with
  | zero => intro f2 buf h1 _; omega
  | succ n ih =>
      intro f2 buf h1 h2
      cases f2 with
      | zero => omega
      | succ m =>
          simp only [drain]
          cases hd : decodeP p c buf with
          | ok pkt rest =>
              have hlt := decodeP_ok_length p c buf pkt rest hd
              simp only [hd]
              rw [ih m rest (by omega) (by omega)]
          | underflow => simp only [hd]
          | malformed => simp only [hd]

theorem drain_underflow_step (p : ProtoState) (c : CompState) (fuel : Nat)
    (buf : List Nat) (h : decodeP p c buf = DecodeRes.underflow) :
    drain p c (fuel + 1) buf = ([], buf, false) := by
  simp [drain, h]

theorem drain_malformed_step (p : ProtoState) (c : CompState) (fuel : Nat)
    (buf : List Nat) (h : decodeP p c buf = DecodeRes.malformed) :
    drain p c (fuel + 1) buf = ([], buf, true) := by
  simp [drain, h]

theorem drain_ok_step (p : ProtoState) (c : CompState) (fuel : Nat)
    (buf : List Nat) (pkt : Packet) (rest : List Nat)
    (h : decodeP p c buf = DecodeRes.ok pkt rest) :
    drain p c (fuel + 1) buf =
      (PEvent.byId pkt :: PEvent.byName pkt :: (drain p c fuel rest).1,
        (drain p c fuel rest).2) := by
  simp [drain, h]

theorem drain_split (p : ProtoState) (c : CompState) :
    ∀ (fuel : Nat) (buf t : List Nat),
      buf.length < fuel →
      (drain p c ((buf ++ t).length + 1) (buf ++ t)).1 =
        (if (drain p c fuel buf).2.2 then (drain p c fuel buf).1
         else (drain p c fuel buf).1 ++
           (drain p c (((drain p c fuel buf).2.1 ++ t).length + 1)
             ((drain p c fuel buf).2.1 ++ t)).1) := by
  intro fuel
  induction fuel with
  | zero => intro buf t h; omega
  | succ n ih =>
      intro buf t h
      cases hd : decodeP p c buf with
      | underflow =>
          have hstep := drain_underflow_step p c n buf hd
          rw [hstep]
          simp
      | malformed =>
          have hstep := drain_malformed_step p c n buf hd
          have hd2 := decodeP_malformed_append p c buf t hd
          have hstep2 := drain_malformed_step p c ((buf ++ t).length) (buf ++ t) hd2
          rw [hstep, hstep2]
          simp
      | ok pkt rest =>
          have hlen := decodeP_ok_length p c buf pkt rest hd
          have hd2 := decodeP_ok_append p c buf t pkt rest hd
          have hlt : (rest ++ t).length < (buf ++ t).length := by
            simp only [List.length_append]; omega
          have lhs_eq :
              (drain p c ((buf ++ t).length + 1) (buf ++ t)).1 =
                PEvent.byId pkt :: PEvent.byName pkt ::
                  (drain p c ((rest ++ t).length + 1) (rest ++ t)).1 := by
            rw [drain_ok_step p c ((buf ++ t).length) (buf ++ t) pkt
              (rest ++ t) hd2]
            rw [drain_fuel p c ((buf ++ t).length) ((rest ++ t).length + 1)
              (rest ++ t) hlt (Nat.lt_succ_self _)]
          rw [lhs_eq, ih rest t (by omega),
            drain_ok_step p c n buf pkt rest hd]
          cases hf : (drain p c n rest).2.2 <;> simp [hf]

theorem read_packet_unenc (s : ConnState) (data : List Nat)
    (henc : s.encrypted = false) :
    read_packet s data =
      ((drain s.proto_state s.comp_state ((s.rbuff.buff ++ data).length + 1)
          (s.rbuff.buff ++ data)).1,
        { s with rbuff :=
            ⟨(drain s.proto_state s.comp_state
                ((s.rbuff.buff ++ data).length + 1) (s.rbuff.buff ++ data)).2.1,
              (drain s.proto_state s.comp_state
                ((s.rbuff.buff ++ data).length + 1)
                (s.rbuff.buff ++ data)).2.1⟩ },
        (drain s.proto_state s.comp_state ((s.rbuff.buff ++ data).length + 1)
          (s.rbuff.buff ++ data)).2.2) := by
  simp [read_packet, henc]

theorem read_packet_enc_none (s : ConnState) (data : List Nat)
    (henc : s.encrypted = true) (hcip : s.cipher = none) :
    read_packet s data = ([], s, true) := by
  simp [read_packet, henc, hcip]

theorem read_packet_enc (s : ConnState) (data : List Nat) (c : Cipher)
    (henc : s.encrypted = true) (hcip : s.cipher = some c) :
    read_packet s data =
      ((drain s.proto_state s.comp_state
          ((s.rbuff.buff ++ streamDec c.ks c.pos data).length + 1)
          (s.rbuff.buff ++ streamDec c.ks c.pos data)).1,
        { s with
          rbuff :=
            ⟨(drain s.proto_state s.comp_state
                ((s.rbuff.buff ++ streamDec c.ks c.pos data).length + 1)
                (s.rbuff.buff ++ streamDec c.ks c.pos data)).2.1,
              (drain s.proto_state s.comp_state
                ((s.rbuff.buff ++ streamDec c.ks c.pos data).length + 1)
                (s.rbuff.buff ++ streamDec c.ks c.pos data)).2.1⟩
          cipher := some ⟨c.ks, c.pos + data.length⟩ },
        (drain s.proto_state s.comp_state
          ((s.rbuff.buff ++ streamDec c.ks c.pos data).length + 1)
          (s.rbuff.buff ++ streamDec c.ks c.pos data)).2.2) := by
  simp [read_packet, henc, hcip]

theorem effIn_unenc (s : ConnState) (data : List Nat)
    (henc : s.encrypted = false) : effIn s data = data := by
  cases hc2 : s.cipher <;> simp [effIn, henc, hc2]

theorem effIn_enc (s : ConnState) (data : List Nat) (c : Cipher)
    (henc : s.encrypted = true) (hcip : s.cipher = some c) :
    effIn s data = streamDec c.ks c.pos data := by
  simp [effIn, henc, hcip]

/-- C1: for every `read_packet` call, a decode attempt that fails with
buffer underflow is treated as a transient partial frame — the receive
buffer is left exactly as it was before the attempt (the read position is
reverted to the checkpoint) and the decode loop stops without emitting
anything or failing; a decode attempt that fails in any other way is not
caught by the underflow branch and propagates as a distinct failure. -/
theorem read_packet_underflow_vs_error (s : ConnState) (data : List Nat)
    (hcip : s.encrypted = true → s.cipher.isSome = true) :
    (decodeP s.proto_state s.comp_state (s.rbuff.buff ++ effIn s data) =
        DecodeRes.underflow →
      (read_packet s data).1 = [] ∧
      (read_packet s data).2.1.rbuff =
        ⟨s.rbuff.buff ++ effIn s data, s.rbuff.buff ++ effIn s data⟩ ∧
      (read_packet s data).2.2 = false) ∧
    (decodeP s.proto_state s.comp_state (s.rbuff.buff ++ effIn s data) =
        DecodeRes.malformed →
      (read_packet s data).1 = [] ∧
      (read_packet s data).2.2 = true) := by
  cases henc : s.encrypted with
  | false =>
      have heff := effIn_unenc s data henc
      constructor
      · intro hu
        rw [heff] at hu
        have hst := drain_underflow_step s.proto_state s.comp_state
          ((s.rbuff.buff ++ data).length) (s.rbuff.buff ++ data) hu
        rw [List.length_append] at hst
        refine ⟨?_, ?_, ?_⟩ <;>
          simp [read_packet_unenc s data henc, heff, hst]
      · intro hm
        rw [heff] at hm
        have hst := drain_malformed_step s.proto_state s.comp_state
          ((s.rbuff.buff ++ data).length) (s.rbuff.buff ++ data) hm
        rw [List.length_append] at hst
        refine ⟨?_, ?_⟩ <;>
          simp [read_packet_unenc s data henc, heff, hst]
  | true =>
      cases hc2 : s.cipher with
      | none =>
          have hsome := hcip henc
          rw [hc2] at hsome
          simp at hsome
      | some c =>
          have heff := effIn_enc s data c henc hc2
          constructor
          · intro hu
            rw [heff] at hu
            have hst := drain_underflow_step s.proto_state s.comp_state
              ((s.rbuff.buff ++ streamDec c.ks c.pos data).length)
              (s.rbuff.buff ++ streamDec c.ks c.pos data) hu
            rw [List.length_append] at hst
            refine ⟨?_, ?_, ?_⟩ <;>
              simp [read_packet_enc s data c henc hc2, heff, hst]
          · intro hm
            rw [heff] at hm
            have hst := drain_malformed_step s.proto_state s.comp_state
              ((s.rbuff.buff ++ streamDec c.ks c.pos data).length)
              (s.rbuff.buff ++ streamDec c.ks c.pos data) hm
            rw [List.length_append] at hst
            refine ⟨?_, ?_⟩ <;>
              simp [read_packet_enc s data c henc hc2, heff, hst]

/-- C1 witness: at the initial connection state, the single byte `0x80`
(a varint continuation byte with nothing after it) underflows — the call
emits nothing, keeps the byte buffered with the checkpoint in place, and
does not fail — while six continuation bytes form a malformed varint whose
failure propagates. -/
theorem read_packet_underflow_vs_error_witness :
    ((read_packet initialConn [128]).1 = [] ∧
      (read_packet initialConn [128]).2.1.rbuff = ⟨[128], [128]⟩ ∧
      (read_packet initialConn [128]).2.2 = false) ∧
    ((read_packet initialConn [255, 255, 255, 255, 255, 0]).1 = [] ∧
      (read_packet initialConn [255, 255, 255, 255, 255, 0]).2.2 = true) :=
  ⟨(read_packet_underflow_vs_error initialConn [128] (by decide)).1
      (by decide),
    (read_packet_underflow_vs_error initialConn [255, 255, 255, 255, 255, 0]
      (by decide)).2 (by decide)⟩

/-- C5: feeding a byte sequence to `read_packet` in two parts, at any split
point, emits the same decoded messages in the same order as feeding the
concatenation in one call, from any initial protocol, compression and
crypto state. -/
theorem read_packet_split (s : ConnState) (d : List Nat) (n : Nat) :
    (readSplit s (d.take n) (d.drop n)).1 = (read_packet s d).1 := by
  cases henc : s.encrypted with
  | true =>
      cases hc2 : s.cipher with
      | none =>
          have h1 := read_packet_enc_none s (d.take n) henc hc2
          have h2 := read_packet_enc_none s d henc hc2
          simp [readSplit, h1, h2]
      | some c =>
          have hbuf : s.rbuff.buff ++ streamDec c.ks c.pos d =
              (s.rbuff.buff ++ streamDec c.ks c.pos (d.take n)) ++
                streamDec c.ks (c.pos + (d.take n).length) (d.drop n) := by
            conv_lhs => rw [← List.take_append_drop n d]
            rw [streamDec_append c.ks (d.take n) c.pos (d.drop n),
              List.append_assoc]
          rcases hdr : drain s.proto_state s.comp_state
              ((s.rbuff.buff ++ streamDec c.ks c.pos (d.take n)).length + 1)
              (s.rbuff.buff ++ streamDec c.ks c.pos (d.take n))
            with ⟨es1, R1, f1⟩
          have h1 : read_packet s (d.take n) =
              (es1,
                { s with
                  rbuff := ⟨R1, R1⟩
                  cipher := some ⟨c.ks, c.pos + (d.take n).length⟩ },
                f1) := by
            rw [read_packet_enc s (d.take n) c henc hc2, hdr]
          have hsplit := drain_split s.proto_state s.comp_state
            ((s.rbuff.buff ++ streamDec c.ks c.pos (d.take n)).length + 1)
            (s.rbuff.buff ++ streamDec c.ks c.pos (d.take n))
            (streamDec c.ks (c.pos + (d.take n).length) (d.drop n))
            (Nat.lt_succ_self _)
          rw [hdr] at hsplit
          have hw : (read_packet s d).1 =
              (drain s.proto_state s.comp_state
                (((s.rbuff.buff ++ streamDec c.ks c.pos (d.take n)) ++
                    streamDec c.ks (c.pos + (d.take n).length)
                      (d.drop n)).length + 1)
                ((s.rbuff.buff ++ streamDec c.ks c.pos (d.take n)) ++
                  streamDec c.ks (c.pos + (d.take n).length) (d.drop n))).1 := by
            rw [read_packet_enc s d c henc hc2]
            show (drain s.proto_state s.comp_state
              ((s.rbuff.buff ++ streamDec c.ks c.pos d).length + 1)
              (s.rbuff.buff ++ streamDec c.ks c.pos d)).1 = _
            rw [hbuf]
          rw [hw, hsplit]
          cases f1 with
          | true => simp [readSplit, h1]
          | false =>
              rcases hdr2 : drain s.proto_state s.comp_state
                  ((R1 ++ streamDec c.ks (c.pos + (d.take n).length)
                      (d.drop n)).length + 1)
                  (R1 ++ streamDec c.ks (c.pos + (d.take n).length) (d.drop n))
                with ⟨es2, R2, f2⟩
              have h2 : read_packet
                  ({ s with
                    rbuff := ⟨R1, R1⟩
                    cipher := some ⟨c.ks, c.pos + (d.take n).length⟩ } :
                      ConnState) (d.drop n) =
                  (es2,
                    { s with
                      rbuff := ⟨R2, R2⟩
                      cipher := some ⟨c.ks,
                        c.pos + (d.take n).length + (d.drop n).length⟩ },
                    f2) := by
                rw [read_packet_enc
                  ({ s with
                    rbuff := ⟨R1, R1⟩
                    cipher := some ⟨c.ks, c.pos + (d.take n).length⟩ } :
                      ConnState)
                  (d.drop n) ⟨c.ks, c.pos + (d.take n).length⟩ henc rfl]
                rw [show ({ s with
                    rbuff := ⟨R1, R1⟩
                    cipher := some ⟨c.ks, c.pos + (d.take n).length⟩ } :
                      ConnState).rbuff.buff = R1 from rfl]
                rw [show (⟨c.ks, c.pos + (d.take n).length⟩ : Cipher).ks = c.ks
                  from rfl]
                rw [show (⟨c.ks, c.pos + (d.take n).length⟩ : Cipher).pos =
                  c.pos + (d.take n).length from rfl]
                rw [show ({ s with
                    rbuff := ⟨R1, R1⟩
                    cipher := some ⟨c.ks, c.pos + (d.take n).length⟩ } :
                      ConnState).proto_state = s.proto_state from rfl]
                rw [show ({ s with
                    rbuff := ⟨R1, R1⟩
                    cipher := some ⟨c.ks, c.pos + (d.take n).length⟩ } :
                      ConnState).comp_state = s.comp_state from rfl]
                rw [hdr2]
              have hcond :
                  ¬ (((es1, R1, false) :
                    List PEvent × List Nat × Bool).2.2 = true) := by simp
              rw [if_neg hcond]
              have hL : (readSplit s (d.take n) (d.drop n)).1 =
                  es1 ++ (read_packet
                    ({ s with
                      rbuff := ⟨R1, R1⟩
                      cipher := some ⟨c.ks, c.pos + (d.take n).length⟩ } :
                        ConnState) (d.drop n)).1 := by
                unfold readSplit
                rw [h1]
                rfl
              rw [hL, h2]
  | false =>
      have hbuf : s.rbuff.buff ++ d =
          (s.rbuff.buff ++ d.take n) ++ d.drop n := by
        rw [List.append_assoc, List.take_append_drop]
      rcases hdr : drain s.proto_state s.comp_state
          ((s.rbuff.buff ++ d.take n).length + 1) (s.rbuff.buff ++ d.take n)
        with ⟨es1, R1, f1⟩
      have h1 : read_packet s (d.take n) =
          (es1, { s with rbuff := ⟨R1, R1⟩ }, f1) := by
        rw [read_packet_unenc s (d.take n) henc, hdr]
      have hsplit := drain_split s.proto_state s.comp_state
        ((s.rbuff.buff ++ d.take n).length + 1) (s.rbuff.buff ++ d.take n)
        (d.drop n) (Nat.lt_succ_self _)
      rw [hdr] at hsplit
      have hw : (read_packet s d).1 =
          (drain s.proto_state s.comp_state
            (((s.rbuff.buff ++ d.take n) ++ d.drop n).length + 1)
            ((s.rbuff.buff ++ d.take n) ++ d.drop n)).1 := by
        rw [read_packet_unenc s d henc]
        show (drain s.proto_state s.comp_state
          ((s.rbuff.buff ++ d).length + 1) (s.rbuff.buff ++ d)).1 = _
        rw [hbuf]
      rw [hw, hsplit]
      cases f1 with
      | true => simp [readSplit, h1]
      | false =>
          rcases hdr2 : drain s.proto_state s.comp_state
              ((R1 ++ d.drop n).length + 1) (R1 ++ d.drop n)
            with ⟨es2, R2, f2⟩
          have h2 : read_packet ({ s with rbuff := ⟨R1, R1⟩ } : ConnState)
              (d.drop n) = (es2, { s with rbuff := ⟨R2, R2⟩ }, f2) := by
            rw [read_packet_unenc
              ({ s with rbuff := ⟨R1, R1⟩ } : ConnState) (d.drop n) henc]
            rw [show ({ s with rbuff := ⟨R1, R1⟩ } :
              ConnState).rbuff.buff = R1 from rfl]
            rw [show ({ s with rbuff := ⟨R1, R1⟩ } :
              ConnState).proto_state = s.proto_state from rfl]
            rw [show ({ s with rbuff := ⟨R1, R1⟩ } :
              ConnState).comp_state = s.comp_state from rfl]
            rw [hdr2]
          simp [readSplit, h1, h2, hdr2]

/-- C10: `connect` overwrites the host and port fields before the connect
attempt, so even a failing connect records the new host and port, while
`connected` is unchanged by the failure (it stays false when it was
false). -/
theorem connect_sets_host_port (host : String) (port : Nat) (ok : Bool)
    (s : ConnState) (sk : SockState) :
    (connect host port ok s sk).1.host = some host ∧
    (connect host port ok s sk).1.port = some port ∧
    (connect host port false s sk).1.connected = s.connected := by
  cases ok <;> exact ⟨rfl, rfl, rfl⟩

end Spock
